import Mathlib

/-! Verification of the Codenames game engine and its AI policies.

The development embeds the core of the program (game-state machine,
spymaster clue policy, operative guess policy, turn orchestrator) as
executable Lean definitions and proves the specified properties about
them.  Randomness (word sampling, role shuffling, starting-team choice)
is modelled by passing the random outcomes as explicit parameters with
the guarantees the random primitives provide stated as hypotheses
(distinctness for sampling, permutation for shuffling).  Python integers
are modelled as Int where they are mutated by subtraction, strings as
Lean String with ASCII case mapping, Python lists and dicts as Lean
lists and association lists in insertion order, and the Python set of
revealed words as a list used only through membership. -/

namespace Codenames

/-- ASCII lowercase of a string; models the Python str.lower call on the
ASCII words used by the game. -/
def lowerStr (s : String) : String := String.mk (s.data.map Char.toLower)

/-- ASCII uppercase of a string; models the Python str.upper call. -/
def upperStr (s : String) : String := String.mk (s.data.map Char.toUpper)

/-- Character-list version of a "starts with" test. -/
def charsPre : List Char → List Char → Bool
  | [], _ => true
  | _ :: _, [] => false
  | a :: as, b :: bs => a == b && charsPre as bs

/-- Substring test on character lists; models the Python "in" operator on
strings (a contiguous-substring test). -/
def subSeqIn (pat : List Char) : List Char → Bool
  | [] => charsPre pat []
  | b :: bs => charsPre pat (b :: bs) || subSeqIn pat bs

/-- Substring test on strings: subStrIn pat s is the Python test pat in s. -/
def subStrIn (pat s : String) : Bool := subSeqIn pat.data s.data

/-- Replace every non-overlapping occurrence of a non-empty pattern, left to
right; models the Python str.replace call (the game only uses a non-empty
pattern). -/
def replaceSeq (pat rep : List Char) : List Char → List Char
  | [] => []
  | c :: cs =>
    if h : pat ≠ [] ∧ charsPre pat (c :: cs) = true then
      rep ++ replaceSeq pat rep ((c :: cs).drop pat.length)
    else
      c :: replaceSeq pat rep cs
termination_by l => l.length
decreasing_by
  · simp only [List.length_drop, List.length_cons]
    have hp : 0 < pat.length := List.length_pos.mpr h.1
    omega
  · simp only [List.length_cons]
    omega

/-- String version of replaceSeq. -/
def replaceStr (s pat rep : String) : String :=
  String.mk (replaceSeq pat.data rep.data s.data)

/-- The fixed vocabulary the board is sampled from (WORD_POOL in the source). -/
def WORD_POOL : List String := [
  "APPLE", "BALL", "BANK", "BEACH", "BEAR", "BED", "BOOK", "BOTTLE", "BRIDGE",
  "BROTHER", "CAT", "CHINA", "CHURCH", "CIRCLE", "CLOUD", "CODE", "COOK", "CROSS",
  "CROWN", "DANCE", "DIAMOND", "DOCTOR", "DRAGON", "DRESS", "DRILL", "DROP", "DUCK",
  "EGG", "EGYPT", "ELEPHANT", "ENGINE", "ENGLAND", "EYE", "FACE", "FAIR", "FALL",
  "FAN", "FENCE", "FIELD", "FIGHTER", "FIGURE", "FILE", "FILM", "FIRE", "FISH",
  "FLUTE", "FLY", "FOOT", "FORCE", "FOREST", "FORK", "FRANCE", "GAME", "GAS",
  "GENIUS", "GERMANY", "GHOST", "GIANT", "GLASS", "GLOVE", "GOLD", "GRACE", "GRASS",
  "GREEN", "GROUND", "HAMMER", "HAND", "HAT", "HAWK", "HEAD", "HEART", "HELICOPTER",
  "HIMALAYAS", "HOLE", "HOLLYWOOD", "HONEY", "HORN", "HORSE", "HOSPITAL", "HOTEL",
  "ICE", "ICON", "IGLOO", "INDIA", "IRON", "IVORY", "JACK", "JAM", "JET",
  "JUPITER", "KANGAROO", "KETCHUP", "KEY", "KING", "KIWI", "KNIFE", "KNIGHT",
  "LAB", "LAP", "LASER", "LAWYER", "LEAD", "LEMON", "LEPRECHAUN", "LIFE", "LIGHT",
  "LIMOUSINE", "LINE", "LINK", "LION", "LITTER", "LOCH", "LOCK", "LOG", "LONDON",
  "LUCK", "MAIL", "MAMMOTH", "MAPLE", "MARCH", "MASS", "MATCH", "MERCURY", "MEXICO",
  "MICROSCOPE", "MILLIONAIRE", "MINE", "MINT", "MISSILE", "MODEL", "MOLE", "MOON",
  "MOSCOW", "MOUNT", "MOUSE", "MOUTH", "MUG", "NAIL", "NEEDLE", "NET", "NEW YORK",
  "NIGHT", "NINJA", "NOTE", "NOVEL", "NURSE", "NUT", "OCTOPUS", "OIL", "OLIVE",
  "OLYMPUS", "OPERA", "ORANGE", "ORGAN", "PALM", "PAN", "PANTS", "PAPER", "PARACHUTE",
  "PARK", "PART", "PASS", "PASTE", "PENGUIN", "PHOENIX", "PIANO", "PIE", "PILOT",
  "PIN", "PIPE", "PIRATE", "PISTOL", "PIT", "PITCH", "PLANE", "PLANT", "PLASTIC",
  "PLATE", "PLAY", "PLOT", "POINT", "POISON", "POLE", "POLICE", "POOL", "PORT",
  "POST", "POUND", "PRESS", "PRINCESS", "PUMPKIN", "PUPIL", "PYRAMID", "QUEEN",
  "QUILL", "RABBIT", "RACKET", "RAY", "REVOLUTION", "RING", "ROBIN", "ROCK", "ROME",
  "ROOT", "ROSE", "ROULETTE", "ROUND", "ROW", "ROYAL", "RUBBER", "RULE", "SATELLITE",
  "SATURN", "SCALE", "SCHOOL", "SCIENTIST", "SCORPION", "SCREEN", "SCUBA", "SEAL",
  "SERVER", "SHADOW", "SHAKESPEARE", "SHARK", "SHIP", "SHOE", "SHOP", "SHOT", "SINK",
  "SKATE", "SKI", "SKULL", "SLIP", "SLUG", "SMUGGLER", "SNOW", "SNOWMAN", "SOCK",
  "SOLDIER", "SOUL", "SPACE", "SPELL", "SPIDER", "SPIKE", "SPINE", "SPOT", "SPRING",
  "SPY", "SQUARE", "STADIUM", "STAFF", "STAMP", "STAR", "STATE", "STICK", "STOCK",
  "STORM", "STOVE", "STRAW", "STREAM", "STRIKE", "STRING", "SUB", "SUIT", "SUPERHERO",
  "SWING", "SWITCH", "TABLE", "TABLET", "TAG", "TAIL", "TAP", "TASTE", "THIEF",
  "THUMB", "TICK", "TIE", "TIGER", "TIME", "TOKYO", "TOOTH", "TORCH", "TOWER",
  "TRACK", "TRAIN", "TRIANGLE", "TRIP", "TRUNK", "TUBE", "TURKEY", "UNDERTAKER",
  "UNICORN", "VACUUM", "VAN", "VET", "WAKE", "WALL", "WAR", "WASHER", "WASHINGTON",
  "WATCH", "WATER", "WAVE", "WEB", "WELL", "WHALE", "WHIP", "WIND", "WITCH",
  "WIZARD", "WOLF", "WOOD", "WOOL", "WORLD", "WORM", "YARD"]

/-- The mutable fields of CodenamesGame; the 5x5 board grid is a pure
display re-arrangement of words and carries no further information, so the
authoritative flat word list is kept.  The Python word-to-role dict is an
association list in insertion order, the revealed set a list used through
membership, the remaining counters Python ints modelled as Int. -/
structure GameState where
  words : List String
  card_types : List (String × String)
  revealed : List String
  turn : String
  red_remaining : Int
  blue_remaining : Int
  game_over : Bool
  winner : Option String
deriving DecidableEq

/-- Role lookup with the UNKNOWN default; models dict.get(word, UNKNOWN). -/
def lookupRole (ct : List (String × String)) (w : String) : String :=
  (List.lookup w ct).getD "UNKNOWN"

/-- CodenamesGame.get_card_type. -/
def get_card_type (g : GameState) (w : String) : String :=
  lookupRole g.card_types w

/-- The role list built by CodenamesGame.setup_board before shuffling: the
starting team gets 9 cards, the other team 8, plus 7 NEUTRAL and 1
ASSASSIN.  (The list first built and shuffled on the lines before the
starting team is chosen is discarded by the rebuild and has no effect.) -/
def base_assignments (first_team : String) : List String :=
  if first_team = "RED" then
    List.replicate 9 "RED" ++ List.replicate 8 "BLUE" ++
      List.replicate 7 "NEUTRAL" ++ List.replicate 1 "ASSASSIN"
  else
    List.replicate 8 "RED" ++ List.replicate 9 "BLUE" ++
      List.replicate 7 "NEUTRAL" ++ List.replicate 1 "ASSASSIN"

/-- CodenamesGame.setup_board, with the random outcomes passed explicitly:
ws is the random.sample result, first_team the random.choice result, and
assignments the role list after random.shuffle.  The word-to-role dict is
the positional zip of the sampled words with the shuffled roles; the
remaining counters are the tallies of RED and BLUE in the shuffled list. -/
def setup_board (ws : List String) (first_team : String)
    (assignments : List String) : GameState :=
  { words := ws
    card_types := ws.zip assignments
    revealed := []
    turn := first_team
    red_remaining := (assignments.countP (fun a => decide (a = "RED")) : Int)
    blue_remaining := (assignments.countP (fun a => decide (a = "BLUE")) : Int)
    game_over := false
    winner := none }

/-- CodenamesGame.reveal_card: returns ((success, card type), new state);
success is false, with the state unchanged, when the word is off the board
or already revealed; otherwise the word joins the revealed set and the
matching team counter is decremented. -/
def reveal_card (g : GameState) (word : String) :
    (Bool × Option String) × GameState :=
  if word ∉ g.words ∨ word ∈ g.revealed then ((false, none), g)
  else
    let ct := get_card_type g word
    let g1 := { g with revealed := word :: g.revealed }
    let g2 :=
      if ct = "RED" then { g1 with red_remaining := g1.red_remaining - 1 }
      else if ct = "BLUE" then { g1 with blue_remaining := g1.blue_remaining - 1 }
      else g1
    ((true, some ct), g2)

/-- CodenamesGame.check_win_condition. -/
def check_win_condition (g : GameState) : Option String :=
  if g.red_remaining = 0 then some "RED"
  else if g.blue_remaining = 0 then some "BLUE"
  else none

/-- The unrevealed words of a team, in board order; the team_words list
built at the start of AISpymaster.generate_clue. -/
def teamWords (g : GameState) (team : String) : List String :=
  g.words.filter (fun w => decide (w ∉ g.revealed ∧ get_card_type g w = team))

/-- The static category table of AISpymaster, in source order. -/
def spy_associations : List (String × List String) := [
  ("animal", ["cat", "dog", "bear", "tiger", "lion", "elephant", "rabbit"]),
  ("body", ["hand", "head", "eye", "foot", "face", "heart"]),
  ("nature", ["tree", "forest", "river", "mountain", "ocean", "beach"]),
  ("building", ["house", "school", "hospital", "bank", "hotel", "church"]),
  ("color", ["red", "blue", "green", "yellow", "black", "white"]),
  ("food", ["apple", "bread", "cake", "cheese", "meat"]),
  ("sport", ["ball", "game", "player", "team", "field"]),
  ("water", ["water", "ocean", "river", "lake", "beach", "fish"]),
  ("royal", ["king", "queen", "crown", "royal", "prince"]),
  ("war", ["soldier", "war", "gun", "battle", "army"]),
  ("space", ["moon", "star", "planet", "space", "rocket"]),
  ("music", ["song", "music", "piano", "note", "sound"]),
  ("time", ["clock", "time", "hour", "minute", "day"]),
  ("round", ["ball", "circle", "ring", "round", "wheel"]),
  ("sharp", ["knife", "sword", "needle", "point", "blade"])]

/-- AISpymaster._get_potential_clues: category names and sibling words of
every category containing the word, then up to two lexical transforms
(a 4-letter stem plus ING when the word is longer than 4 characters, and
the word with every er removed when it contains er), truncated to 5. -/
def get_potential_clues (word : String) : List String :=
  let word_lower := lowerStr word
  let p1 := spy_associations.foldl
    (fun acc p =>
      if word_lower ∈ p.2 then
        acc ++ [p.1] ++ p.2.filter (fun w => decide (w ≠ word_lower))
      else acc) []
  let p2 := if word.length > 4 then p1 ++ [String.mk (word.data.take 4) ++ "ING"]
            else p1
  let p3 := if subStrIn "er" word_lower then p2 ++ [replaceStr word_lower "er" ""]
            else p2
  p3.take 5

/-- One dict update of the clue_scores scoreboard: append the word to the
entry of the clue, creating the entry at the end when absent (Python dict
insertion order). -/
def addScore (sc : List (String × List String)) (clue w : String) :
    List (String × List String) :=
  if sc.any (fun p => p.1 == clue) then
    sc.map (fun p => if p.1 = clue then (p.1, p.2 ++ [w]) else p)
  else sc ++ [(clue, [w])]

/-- The clue_scores scoreboard of AISpymaster.generate_clue: for each team
word in order, each of its potential clues is credited with that word. -/
def buildScores (tws : List String) : List (String × List String) :=
  tws.foldl (fun sc w => (get_potential_clues w).foldl (fun sc2 c => addScore sc2 c w) sc) []

/-- The best-clue selection loop of AISpymaster.generate_clue: scan the
scoreboard in insertion order, skipping clues whose uppercase form is on
the board, and keep the first clue whose distinct-word tally strictly
exceeds the best so far while not exceeding the team word count. -/
def clue_select (g : GameState) (tws : List String)
    (scores : List (String × List String)) : Option String × Nat :=
  scores.foldl
    (fun best p =>
      if upperStr p.1 ∉ g.words then
        let u := p.2.dedup.length
        if u > best.2 ∧ u ≤ tws.length then (some p.1, u) else best
      else best)
    (none, 0)

/-- AISpymaster.generate_clue for the team of the acting spymaster: the
pass sentinel when the team has no unrevealed words, otherwise the best
association clue (uppercased, count capped at the team word count), with
the first team word as a count-1 fallback clue when no association
qualifies (a truthiness test in the source also rejects an empty clue
string). -/
def generate_clue (g : GameState) (team : String) : String × Nat :=
  match teamWords g team with
  | [] => ("PASS", 0)
  | w0 :: rest =>
    let best := clue_select g (w0 :: rest) (buildScores (w0 :: rest))
    match best.1 with
    | some c =>
      if c ≠ "" ∧ best.2 > 0 then (upperStr c, min best.2 (w0 :: rest).length)
      else (w0, 1)
    | none => (w0, 1)

/-- The static category table of AIGuesser._score_word, in source order
(note: smaller than the spymaster table, and the round category does not
list the word round itself). -/
def guesser_associations : List (String × List String) := [
  ("animal", ["cat", "dog", "bear", "tiger", "lion", "elephant"]),
  ("body", ["hand", "head", "eye", "foot", "face"]),
  ("nature", ["tree", "forest", "river", "mountain"]),
  ("water", ["water", "ocean", "river", "beach", "fish"]),
  ("royal", ["king", "queen", "crown", "royal"]),
  ("round", ["ball", "circle", "ring", "wheel"])]

/-- The substring component of AIGuesser._score_word: 30 when either
string contains the other. -/
def subScoreW (clue word : String) : Nat :=
  if subStrIn clue word || subStrIn word clue then 30 else 0

/-- The character-overlap component: the number of distinct characters the
two strings share (len of the set intersection in the source). -/
def overlapCount (clue word : String) : Nat :=
  (clue.data.dedup.filter (fun c => decide (c ∈ word.data))).length

/-- The length-similarity component: max(0, 10 - abs(len difference)),
rendered by truncated Nat subtraction. -/
def lenScore (clue word : String) : Nat :=
  10 - Int.natAbs ((clue.length : Int) - (word.length : Int))

/-- One iteration of the category loop of AIGuesser._score_word: +50 when
the clue equals the category name and the word is a member, and a further
+30 when both clue and word are members. -/
def catStep (clue word : String) (acc : Nat) (p : String × List String) : Nat :=
  let a := if p.1 = clue ∧ word ∈ p.2 then acc + 50 else acc
  if word ∈ p.2 ∧ clue ∈ p.2 then a + 30 else a

/-- The total category bonus of AIGuesser._score_word. -/
def catBonus (clue word : String) : Nat :=
  guesser_associations.foldl (catStep clue word) 0

/-- AIGuesser._score_word on the lowercased strings its caller passes: 100
for an exact match, otherwise the sum of the substring, overlap, length
and category components (the float score of the source only ever holds
non-negative integers). -/
def score_word (clue word : String) : Nat :=
  if clue = word then 100
  else subScoreW clue word + 5 * overlapCount clue word + lenScore clue word +
    catBonus clue word

/-- The argmax step over the scored words: Python sorts the score dict
items descending with a stable sort and takes the head, which is the
first word attaining the maximal score in board order; the fold keeps the
current best and replaces it only on a strictly greater score. -/
def guess_select (scored : List (String × Nat)) : Option (String × Nat) :=
  scored.foldl
    (fun best p =>
      match best with
      | none => some p
      | some q => if p.2 > q.2 then some p else some q) none

/-- AIGuesser.make_guess: pass on the PASS sentinel or a zero count,
otherwise score every unrevealed board word against the lowercased clue
and return the top word when its score is positive. -/
def make_guess (g : GameState) (clue : String) (count : Nat) : Option String :=
  if clue = "PASS" ∨ count = 0 then none
  else
    let available := g.words.filter (fun w => decide (w ∉ g.revealed))
    match available with
    | [] => none
    | a :: rest =>
      let clue_lower := lowerStr clue
      let scored := (a :: rest).map (fun w => (w, score_word clue_lower (lowerStr w)))
      match guess_select scored with
      | some (bw, bs) => if bs > 0 then some bw else none
      | none => none

/-- The turn flip used throughout play_game: BLUE when the turn is RED,
else RED. -/
def other_team (t : String) : String := if t = "RED" then "BLUE" else "RED"

/-- The inner guessing loop of play_game, parametric in the guess policy.
The fuel argument is the number of guesses still allowed
(max_guesses - guesses_made); the result carries the state together with
the turn_ended and turn_already_switched flags at loop exit.  Each
iteration asks the policy for a guess, reveals it, then (in source order)
checks the win condition, the assassin, a wrong card, and the guess cap. -/
def guessLoopWith (gsr : GameState → String → Nat → Option String)
    (clue : String) (count : Nat) : Nat → GameState → GameState × Bool × Bool
  | 0, g => (g, false, false)
  | n + 1, g =>
    if g.game_over then (g, false, false)
    else
      match gsr g clue count with
      | none => (g, true, false)
      | some guess =>
        let res := reveal_card g guess
        if res.1.1 = false then (res.2, true, false)
        else
          let ct := res.1.2.getD "UNKNOWN"
          let g1 := res.2
          match check_win_condition g1 with
          | some w => ({ g1 with game_over := true, winner := some w }, false, false)
          | none =>
            if ct ≠ g1.turn then
              if ct = "ASSASSIN" then
                ({ g1 with game_over := true, winner := some (other_team g1.turn) },
                  false, false)
              else ({ g1 with turn := other_team g1.turn }, true, true)
            else if n = 0 then (g1, true, false)
            else guessLoopWith gsr clue count n g1

/-- One orchestrated turn of play_game, parametric in the two policies:
ask the spymaster of the active team for a clue; on the PASS sentinel the
turn flips without a reveal; otherwise run the guessing loop with
count + 1 allowed guesses and flip the turn afterwards when the turn
ended without the game being over and without the loop having already
switched it. -/
def playTurnWith (spy : GameState → String → String × Nat)
    (gsr : GameState → String → Nat → Option String) (g : GameState) : GameState :=
  let cl := spy g g.turn
  if cl.1 = "PASS" then { g with turn := other_team g.turn }
  else
    let r := guessLoopWith gsr cl.1 cl.2 (cl.2 + 1) g
    if r.1.game_over = false ∧ r.2.1 = true ∧ r.2.2 = false then
      { r.1 with turn := other_team r.1.turn }
    else r.1

/-- The main loop of play_game, parametric in the policies: run turns
while the game is not over and the turn budget (max_turns, 50 at the
call site) is not exhausted; also counts the turns executed. -/
def runGameCountWith (spy : GameState → String → String × Nat)
    (gsr : GameState → String → Nat → Option String) :
    Nat → GameState → GameState × Nat
  | 0, g => (g, 0)
  | n + 1, g =>
    if g.game_over then (g, 0)
    else
      let r := runGameCountWith spy gsr n (playTurnWith spy gsr g)
      (r.1, r.2 + 1)

/-- The AI-vs-AI instantiation (mode 1): the spymaster and guesser of the
active team are the AI policies. -/
def playTurn (g : GameState) : GameState :=
  playTurnWith (fun g t => generate_clue g t) (fun g c n => make_guess g c n) g

/-- A sequence of reveal_card calls applied in order. -/
def applyReveals (g : GameState) (l : List String) : GameState :=
  l.foldl (fun g w => (reveal_card g w).2) g

/-- The per-category increment of the category loop; catStep adds exactly
this amount to its accumulator (proved below). -/
def catDelta (clue word : String) (p : String × List String) : Nat :=
  (if p.1 = clue ∧ word ∈ p.2 then 50 else 0) +
    (if word ∈ p.2 ∧ clue ∈ p.2 then 30 else 0)

/-- All member words of the guesser category table. -/
def memberWords : List String := (guesser_associations.map Prod.snd).flatten

/-- All strings that can trigger a nonzero category bonus as the clue:
the category names and the member words. -/
def triggerWords : List String :=
  guesser_associations.map Prod.fst ++ memberWords

/-- A concrete 25-word board sampled from the pool, used to evaluate the
theorems on explicit inputs. -/
def w25 : List String :=
  ["JAM", "BED", "BOOK", "CODE", "DUCK", "EGG", "FAN", "GAS", "HAT",
   "ICE", "KEY", "LAB", "LOG", "MUG", "NET", "NUT", "PIN",
   "OIL", "PIT", "ROW", "SUB", "TAG", "TIE", "VAN", "WEB"]

/-- A role list for w25 in board order: 9 RED, 8 BLUE, 7 NEUTRAL and the
ASSASSIN on WEB. -/
def cRoles : List String :=
  ["RED", "RED", "RED", "RED", "RED", "RED", "RED", "RED", "RED",
   "BLUE", "BLUE", "BLUE", "BLUE", "BLUE", "BLUE", "BLUE", "BLUE",
   "NEUTRAL", "NEUTRAL", "NEUTRAL", "NEUTRAL", "NEUTRAL", "NEUTRAL", "NEUTRAL",
   "ASSASSIN"]

/-- A mid-game state over w25: eight of the nine RED words and three BLUE
words are revealed, JAM is the only unrevealed RED word, RED to move. -/
def cState : GameState :=
  { words := w25
    card_types := w25.zip cRoles
    revealed := ["BED", "BOOK", "CODE", "DUCK", "EGG", "FAN", "GAS", "HAT",
                 "ICE", "KEY", "LAB"]
    turn := "RED"
    red_remaining := 1
    blue_remaining := 5
    game_over := false
    winner := none }

/-- The state cState immediately after the last RED word is revealed, at
the moment the orchestrator queries the win condition: the RED counter
has just reached 0 while 5 BLUE words remain. -/
def c1State : GameState :=
  { cState with revealed := "JAM" :: cState.revealed, red_remaining := 0 }

/-- A guess policy that always proposes the assassin word of cState. -/
def gsrWeb : GameState → String → Nat → Option String := fun _ _ _ => some "WEB"

/-- A spymaster policy that always passes. -/
def spyPass : GameState → String → String × Nat := fun _ _ => ("PASS", 0)

/-- A guess policy that always passes. -/
def gsrNone : GameState → String → Nat → Option String := fun _ _ _ => none

/-- The counting invariant of the game state: the words are distinct and
each remaining counter equals the number of unrevealed words of that
team (teamWords g r is exactly that filter). -/
def countInv (g : GameState) : Prop :=
  g.words.Nodup ∧
  g.red_remaining = ((teamWords g "RED").length : Int) ∧
  g.blue_remaining = ((teamWords g "BLUE").length : Int)

/-- A left fold preserves any invariant its step function preserves. -/
theorem foldl_pres {α β : Type} {f : β → α → β} {P : β → Prop}
    (h : ∀ b a, P b → P (f b a)) :
    ∀ (l : List α) (b : β), P b → P (l.foldl f b) := by
  intro l
  induction l with
  | nil => intro b hb; exact hb
  | cons x xs ih => intro b hb; exact ih (f b x) (h b x hb)

/-- A left fold preserves any invariant its step function preserves on the
elements of the folded list. -/
theorem foldl_pres_mem {α β : Type} {f : β → α → β} {P : β → Prop} :
    ∀ (l : List α), (∀ b a, a ∈ l → P b → P (f b a)) →
      ∀ b, P b → P (l.foldl f b) := by
  intro l
  induction l with
  | nil => intro _ b hb; exact hb
  | cons x xs ih =>
    intro h b hb
    exact ih (fun b a ha hb => h b a (List.mem_cons_of_mem x ha) hb) (f b x)
      (h b x (List.mem_cons_self x xs) hb)

/-- C1: the claim states that check_win_condition returns RED exactly when
blue_remaining is 0 and BLUE exactly when red_remaining is 0.  At c1State
(RED counter just reached 0, five BLUE words left) the code returns RED
although blue_remaining is 5, and does not return BLUE although
red_remaining is 0, refuting both directions of the claimed attribution. -/
theorem check_win_counterexample :
    check_win_condition c1State = some "RED" ∧
    c1State.blue_remaining ≠ 0 ∧
    c1State.red_remaining = 0 ∧
    check_win_condition c1State ≠ some "BLUE" := by
  decide

/-- C1 (amended): check_win_condition returns a team iff that team's OWN
remaining count reached 0: RED exactly when red_remaining is 0, BLUE
exactly when red_remaining is nonzero and blue_remaining is 0, and none
exactly when both counts are nonzero. -/
theorem check_win_spec (g : GameState) :
    (check_win_condition g = some "RED" ↔ g.red_remaining = 0) ∧
    (check_win_condition g = some "BLUE" ↔
      (g.red_remaining ≠ 0 ∧ g.blue_remaining = 0)) ∧
    (check_win_condition g = none ↔
      (g.red_remaining ≠ 0 ∧ g.blue_remaining ≠ 0)) := by
  unfold check_win_condition
  split_ifs with h1 h2 <;> simp_all

/-- C6: reveal_card fails (returning the not-applied result with the state
unchanged) exactly when the word is off the board or already revealed;
otherwise it returns the role of the word, adds the word to the revealed
set, decrements exactly the counter of a matching RED or BLUE role, and
leaves every other field unchanged. -/
theorem reveal_card_spec (g : GameState) (w : String) :
    ((reveal_card g w).1.1 = false ↔ (w ∉ g.words ∨ w ∈ g.revealed)) ∧
    ((w ∉ g.words ∨ w ∈ g.revealed) → reveal_card g w = ((false, none), g)) ∧
    (w ∈ g.words → w ∉ g.revealed →
      (reveal_card g w).1 = (true, some (get_card_type g w)) ∧
      (reveal_card g w).2.revealed = w :: g.revealed ∧
      (reveal_card g w).2.words = g.words ∧
      (reveal_card g w).2.card_types = g.card_types ∧
      (reveal_card g w).2.turn = g.turn ∧
      (reveal_card g w).2.game_over = g.game_over ∧
      (reveal_card g w).2.winner = g.winner ∧
      (get_card_type g w = "RED" →
        (reveal_card g w).2.red_remaining = g.red_remaining - 1 ∧
        (reveal_card g w).2.blue_remaining = g.blue_remaining) ∧
      (get_card_type g w = "BLUE" →
        (reveal_card g w).2.blue_remaining = g.blue_remaining - 1 ∧
        (reveal_card g w).2.red_remaining = g.red_remaining) ∧
      (get_card_type g w ≠ "RED" → get_card_type g w ≠ "BLUE" →
        (reveal_card g w).2.red_remaining = g.red_remaining ∧
        (reveal_card g w).2.blue_remaining = g.blue_remaining)) := by
  by_cases hw : w ∈ g.words
  · by_cases hr : w ∈ g.revealed
    · have hc : w ∉ g.words ∨ w ∈ g.revealed := Or.inr hr
      unfold reveal_card
      rw [if_pos hc]
      exact ⟨iff_of_true rfl hc, fun _ => rfl, fun _ hnr => absurd hr hnr⟩
    · have hc : ¬(w ∉ g.words ∨ w ∈ g.revealed) := by simp [hw, hr]
      unfold reveal_card
      rw [if_neg hc]
      refine ⟨iff_of_false (by simp) hc, fun h => absurd h hc, fun _ _ => ?_⟩
      dsimp only
      split_ifs with hR hB <;> simp_all
  · have hc : w ∉ g.words ∨ w ∈ g.revealed := Or.inl hw
    unfold reveal_card
    rw [if_pos hc]
    exact ⟨iff_of_true rfl hc, fun _ => rfl, fun hw2 _ => absurd hw2 hw⟩

/-- Evaluates reveal_card at concrete inputs through reveal_card_spec: the
already-revealed word BED is rejected with the state unchanged, and the
fresh word JAM is applied with its role returned. -/
theorem reveal_card_spec_witness :
    reveal_card cState "BED" = ((false, none), cState) ∧
    (reveal_card cState "JAM").1 = (true, some (get_card_type cState "JAM")) := by
  refine ⟨(reveal_card_spec cState "BED").2.1 (Or.inr (by decide)), ?_⟩
  exact ((reveal_card_spec cState "JAM").2.2 (by decide) (by decide)).1

/-- The best-clue fold yields either the initial (none, 0) pair or a clue
that passed the guards: its uppercase form is off the board and its tally
lies between 1 and the team word count. -/
theorem clue_select_cases (g : GameState) (tws : List String)
    (scores : List (String × List String)) :
    ((clue_select g tws scores).1 = none ∧ (clue_select g tws scores).2 = 0) ∨
    (∃ c, (clue_select g tws scores).1 = some c ∧ upperStr c ∉ g.words ∧
      1 ≤ (clue_select g tws scores).2 ∧
      (clue_select g tws scores).2 ≤ tws.length) := by
  unfold clue_select
  apply foldl_pres
    (P := fun b : Option String × Nat => (b.1 = none ∧ b.2 = 0) ∨
      (∃ c, b.1 = some c ∧ upperStr c ∉ g.words ∧ 1 ≤ b.2 ∧ b.2 ≤ tws.length))
  · intro b p hb
    dsimp only
    by_cases h1 : upperStr p.1 ∉ g.words
    · rw [if_pos h1]
      by_cases h2 : p.2.dedup.length > b.2 ∧ p.2.dedup.length ≤ tws.length
      · rw [if_pos h2]
        right
        exact ⟨p.1, rfl, h1, by omega, h2.2⟩
      · rw [if_neg h2]
        exact hb
    · rw [if_neg h1]
      exact hb
  · left
    exact ⟨rfl, rfl⟩

/-- C2: the claim states that every non-PASS clue text is off the board;
at cState the only unrevealed RED word JAM has no association entry, so
the spymaster falls back to the single-word clue (JAM, 1), whose text is
one of the 25 board words, refuting the claim. -/
theorem generate_clue_counterexample :
    (generate_clue cState "RED").1 ≠ "PASS" ∧
    generate_clue cState "RED" = ("JAM", 1) ∧
    (generate_clue cState "RED").1 ∈ cState.words := by
  decide

/-- C2 (amended): every clue produced by generate_clue is the pass
sentinel, or has a text that is not one of the board words (the
association path), or is the degraded single-word fallback: its text is
one of the acting team's own unrevealed words and its count is 1. -/
theorem generate_clue_not_board_spec (g : GameState) (team : String) :
    generate_clue g team = ("PASS", 0) ∨
    (generate_clue g team).1 ∉ g.words ∨
    ((generate_clue g team).1 ∈ teamWords g team ∧
      (generate_clue g team).2 = 1) := by
  cases hTW : teamWords g team with
  | nil =>
    left
    simp [generate_clue, hTW]
  | cons w0 rest =>
    have hmem : w0 ∈ (w0 :: rest) := List.mem_cons_self w0 rest
    simp only [generate_clue, hTW]
    rcases clue_select_cases g (w0 :: rest) (buildScores (w0 :: rest)) with
      ⟨h1, h2⟩ | ⟨c, hc, hnw, hge, hle⟩
    · rw [h1]
      dsimp only
      right; right
      exact ⟨hmem, rfl⟩
    · rw [hc]
      dsimp only
      split_ifs with hif
      · right; left
        exact hnw
      · right; right
        exact ⟨hmem, rfl⟩

/-- C8: the clue count is at most the number of the team's unrevealed
words, and generate_clue returns the pass sentinel (PASS, 0) exactly when
the team has no unrevealed words. -/
theorem generate_clue_count_spec (g : GameState) (team : String) :
    (generate_clue g team).2 ≤ (teamWords g team).length ∧
    (generate_clue g team = ("PASS", 0) ↔ teamWords g team = []) := by
  cases hTW : teamWords g team with
  | nil =>
    simp [generate_clue, hTW]
  | cons w0 rest =>
    simp only [generate_clue, hTW]
    rcases clue_select_cases g (w0 :: rest) (buildScores (w0 :: rest)) with
      ⟨h1, h2⟩ | ⟨c, hc, hnw, hge, hle⟩
    · rw [h1]
      dsimp only
      refine ⟨by simp, ?_⟩
      simp [Prod.ext_iff]
    · rw [hc]
      dsimp only
      split_ifs with hif
      · refine ⟨min_le_right _ _, ?_⟩
        have hmin : 1 ≤ min (clue_select g (w0 :: rest) (buildScores (w0 :: rest))).2
            (w0 :: rest).length :=
          le_min hge (by simp)
        simp only [Prod.ext_iff]
        constructor
        · intro h
          omega
        · intro h
          exact absurd h (by simp)
      · refine ⟨by simp, ?_⟩
        simp [Prod.ext_iff]

/-- The argmax fold yields none or an element of the scored list. -/
theorem guess_select_mem (scored : List (String × Nat)) :
    guess_select scored = none ∨
    ∃ p, guess_select scored = some p ∧ p ∈ scored := by
  unfold guess_select
  apply foldl_pres_mem
    (P := fun b : Option (String × Nat) => b = none ∨ ∃ p, b = some p ∧ p ∈ scored)
  · intro b p hp hb
    rcases hb with hbn | ⟨q, hq, hqm⟩
    · rw [hbn]
      right
      exact ⟨p, rfl, hp⟩
    · rw [hq]
      dsimp only
      split_ifs with hgt
      · right; exact ⟨p, rfl, hp⟩
      · right; exact ⟨q, rfl, hqm⟩
  · left; rfl

/-- C10: whenever the AI operative policy returns a word, that word is on
the board and unrevealed, so the orchestrator's subsequent reveal_card
call on it succeeds and the defensive invalid-guess branch cannot fire
under the AI policy. -/
theorem make_guess_valid_spec (g : GameState) (clue : String) (count : Nat)
    (w : String) (h : make_guess g clue count = some w) :
    w ∈ g.words ∧ w ∉ g.revealed ∧ (reveal_card g w).1.1 = true := by
  unfold make_guess at h
  by_cases h0 : clue = "PASS" ∨ count = 0
  · rw [if_pos h0] at h
    exact absurd h (by simp)
  · rw [if_neg h0] at h
    cases hav : g.words.filter (fun x => decide (x ∉ g.revealed)) with
    | nil =>
      rw [hav] at h
      exact absurd h (by simp)
    | cons a rest =>
      rw [hav] at h
      dsimp only at h
      rcases guess_select_mem
          ((a :: rest).map (fun x => (x, score_word (lowerStr clue) (lowerStr x)))) with
        hn | ⟨p, hp, hpmem⟩
      · rw [hn] at h
        exact absurd h (by simp)
      · obtain ⟨pw, ps⟩ := p
        rw [hp] at h
        dsimp only at h
        split_ifs at h with hpos
        · have hw : pw = w := by
            simpa using h
          have hin : pw ∈ (a :: rest) := by
            rcases List.mem_map.1 hpmem with ⟨x, hx, hxe⟩
            have : x = pw := congrArg Prod.fst hxe
            rwa [← this]
          rw [hw] at hin
          rw [← hav] at hin
          have hmem := List.mem_filter.1 hin
          have hnr : w ∉ g.revealed := by
            have := hmem.2
            simpa using this
          refine ⟨hmem.1, hnr, ?_⟩
          simp [reveal_card, hmem.1, hnr]

/-- Evaluates make_guess at cState with the clue water: the guess NET is
on the board and unrevealed and its reveal succeeds. -/
theorem make_guess_valid_witness :
    make_guess cState "water" 1 = some "NET" ∧
    "NET" ∈ cState.words ∧ "NET" ∉ cState.revealed ∧
    (reveal_card cState "NET").1.1 = true :=
  ⟨by decide, make_guess_valid_spec cState "water" 1 "NET" (by decide)⟩

/-- Counting the words whose positional zip role is r equals counting r in
the role list, for distinct words zipped against an equally long list. -/
theorem filter_zip_lookup (r : String) :
    ∀ (ws as : List String), ws.Nodup → ws.length = as.length →
      (ws.filter (fun w => decide (lookupRole (ws.zip as) w = r))).length =
        as.countP (fun a => decide (a = r)) := by
  intro ws
  induction ws with
  | nil =>
    intro as _ hlen
    cases as with
    | nil => simp
    | cons a u => simp at hlen
  | cons x t ih =>
    intro as hnd hlen
    cases as with
    | nil => simp at hlen
    | cons a u =>
      have hxt : x ∉ t := (List.nodup_cons.1 hnd).1
      have hndt : t.Nodup := (List.nodup_cons.1 hnd).2
      have hlen2 : t.length = u.length := by simpa using hlen
      have hhead : lookupRole ((x, a) :: t.zip u) x = a := by
        simp [lookupRole, List.lookup]
      have hcongr : t.filter (fun w => decide (lookupRole ((x :: t).zip (a :: u)) w = r)) =
          t.filter (fun w => decide (lookupRole (t.zip u) w = r)) := by
        apply List.filter_congr
        intro w hw
        have hwx : w ≠ x := fun he => hxt (he ▸ hw)
        have hskip : List.lookup w ((x, a) :: t.zip u) = List.lookup w (t.zip u) := by
          simp [List.lookup, beq_eq_false_iff_ne.mpr hwx]
        simp [lookupRole, List.zip_cons_cons, hskip]
      rw [List.filter_cons, hcongr, List.countP_cons]
      have ih2 := ih u hndt hlen2
      by_cases hr : a = r
      · subst hr
        simp [List.zip_cons_cons, hhead, ih2]
      · simp [List.zip_cons_cons, hhead, hr, ih2]

/-- Revealing one more word removes exactly its own contribution from an
unrevealed-words count, for a distinct word list. -/
theorem length_filter_rev_add {q : String → Prop} [DecidablePred q] :
    ∀ (ws : List String), ws.Nodup → ∀ (rev : List String) (w : String), w ∈ ws →
      (ws.filter (fun x => decide (x ∉ rev ∧ q x))).length =
        (ws.filter (fun x => decide (x ∉ (w :: rev) ∧ q x))).length +
          (if w ∉ rev ∧ q w then 1 else 0) := by
  intro ws
  induction ws with
  | nil =>
    intro _ rev w hw
    simp at hw
  | cons x t ih =>
    intro hnd rev w hw
    have hxt : x ∉ t := (List.nodup_cons.1 hnd).1
    have hndt : t.Nodup := (List.nodup_cons.1 hnd).2
    rw [List.filter_cons, List.filter_cons]
    rcases List.mem_cons.1 hw with hwx | hwt
    · subst hwx
      have hnew : ¬(w ∉ (w :: rev) ∧ q w) := fun hcon => hcon.1 (List.mem_cons_self w rev)
      have hcongr : t.filter (fun y => decide (y ∉ (w :: rev) ∧ q y)) =
          t.filter (fun y => decide (y ∉ rev ∧ q y)) := by
        apply List.filter_congr
        intro y hy
        have hyx : y ≠ w := fun he => hxt (he ▸ hy)
        simp [List.mem_cons, hyx]
      rw [hcongr]
      by_cases hold : w ∉ rev ∧ q w
      · rw [if_pos (decide_eq_true hold),
          if_neg (by simp only [decide_eq_true_eq]; exact hnew), if_pos hold]
        simp [List.length_cons]
      · rw [if_neg (by simp only [decide_eq_true_eq]; exact hold),
          if_neg (by simp only [decide_eq_true_eq]; exact hnew), if_neg hold]
        omega
    · have hwx : w ≠ x := fun he => hxt (he ▸ hwt)
      have hxw : x ≠ w := fun he => hwx he.symm
      have hxsame : (x ∉ (w :: rev) ∧ q x) ↔ (x ∉ rev ∧ q x) := by
        constructor
        · rintro ⟨h1, h2⟩
          exact ⟨fun hm => h1 (List.mem_cons_of_mem w hm), h2⟩
        · rintro ⟨h1, h2⟩
          refine ⟨?_, h2⟩
          intro hm
          rcases List.mem_cons.1 hm with he | hm2
          · exact hxw he
          · exact h1 hm2
      have ih2 := ih hndt rev w hwt
      by_cases hold : x ∉ rev ∧ q x
      · rw [if_pos (decide_eq_true hold), if_pos (decide_eq_true (hxsame.2 hold))]
        simp only [List.length_cons]
        omega
      · have hnot2 : ¬(x ∉ (w :: rev) ∧ q x) := fun hc => hold (hxsame.1 hc)
        rw [if_neg (by simp only [decide_eq_true_eq]; exact hold),
          if_neg (by simp only [decide_eq_true_eq]; exact hnot2)]
        exact ih2

/-- The counting invariant holds after setup, for distinct sampled words
zipped against an equally long role list. -/
theorem countInv_setup (ws : List String) (ft : String) (assigns : List String)
    (hnd : ws.Nodup) (hlen : ws.length = assigns.length) :
    countInv (setup_board ws ft assigns) := by
  have hc : ∀ r, teamWords (setup_board ws ft assigns) r =
      ws.filter (fun w => decide (lookupRole (ws.zip assigns) w = r)) := by
    intro r
    apply List.filter_congr
    intro w _
    simp [setup_board, get_card_type]
  refine ⟨hnd, ?_, ?_⟩
  · show ((assigns.countP (fun a => decide (a = "RED")) : Nat) : Int) = _
    rw [hc "RED", filter_zip_lookup "RED" ws assigns hnd hlen]
  · show ((assigns.countP (fun a => decide (a = "BLUE")) : Nat) : Int) = _
    rw [hc "BLUE", filter_zip_lookup "BLUE" ws assigns hnd hlen]

/-- reveal_card preserves the counting invariant. -/
theorem countInv_reveal (g : GameState) (w : String) (h : countInv g) :
    countInv (reveal_card g w).2 := by
  obtain ⟨hnd, hred, hblue⟩ := h
  by_cases hc : w ∉ g.words ∨ w ∈ g.revealed
  · unfold reveal_card
    rw [if_pos hc]
    exact ⟨hnd, hred, hblue⟩
  · push_neg at hc
    obtain ⟨hw, hr⟩ := hc
    have hspec := (reveal_card_spec g w).2.2 hw hr
    have hwords : (reveal_card g w).2.words = g.words := hspec.2.2.1
    have hct : (reveal_card g w).2.card_types = g.card_types := hspec.2.2.2.1
    have hrev : (reveal_card g w).2.revealed = w :: g.revealed := hspec.2.1
    have htw : ∀ r, teamWords (reveal_card g w).2 r =
        g.words.filter (fun x => decide (x ∉ (w :: g.revealed) ∧ get_card_type g x = r)) := by
      intro r
      unfold teamWords
      rw [hwords, hrev]
      apply List.filter_congr
      intro x _
      simp [get_card_type, hct]
    have hcount : ∀ r, (teamWords g r).length =
        (teamWords (reveal_card g w).2 r).length +
          (if w ∉ g.revealed ∧ get_card_type g w = r then 1 else 0) := by
      intro r
      rw [htw r]
      exact length_filter_rev_add g.words hnd g.revealed w hw
    refine ⟨by rw [hwords]; exact hnd, ?_, ?_⟩
    · by_cases hR : get_card_type g w = "RED"
      · have hdec : (reveal_card g w).2.red_remaining = g.red_remaining - 1 :=
          (hspec.2.2.2.2.2.2.2.1 hR).1
        rw [hdec, hred, hcount "RED", if_pos ⟨hr, hR⟩]
        push_cast
        omega
      · have hsame : (reveal_card g w).2.red_remaining = g.red_remaining := by
          by_cases hB : get_card_type g w = "BLUE"
          · exact (hspec.2.2.2.2.2.2.2.2.1 hB).2
          · exact (hspec.2.2.2.2.2.2.2.2.2 hR hB).1
        rw [hsame, hred, hcount "RED", if_neg (fun hc => hR hc.2)]
        push_cast
        omega
    · by_cases hB : get_card_type g w = "BLUE"
      · have hdec : (reveal_card g w).2.blue_remaining = g.blue_remaining - 1 :=
          (hspec.2.2.2.2.2.2.2.2.1 hB).1
        rw [hdec, hblue, hcount "BLUE", if_pos ⟨hr, hB⟩]
        push_cast
        omega
      · have hsame : (reveal_card g w).2.blue_remaining = g.blue_remaining := by
          by_cases hR : get_card_type g w = "RED"
          · exact (hspec.2.2.2.2.2.2.2.1 hR).2
          · exact (hspec.2.2.2.2.2.2.2.2.2 hR hB).2
        rw [hsame, hblue, hcount "BLUE", if_neg (fun hc => hB hc.2)]
        push_cast
        omega

/-- C4: after setup_board followed by any sequence of reveal_card calls,
red_remaining equals the number of unrevealed RED-role words and
blue_remaining the number of unrevealed BLUE-role words. -/
theorem remaining_invariant_spec (ws : List String) (ft : String)
    (assigns : List String) (revs : List String)
    (hnd : ws.Nodup) (hlen : ws.length = assigns.length) :
    (applyReveals (setup_board ws ft assigns) revs).red_remaining =
      ((teamWords (applyReveals (setup_board ws ft assigns) revs) "RED").length : Int) ∧
    (applyReveals (setup_board ws ft assigns) revs).blue_remaining =
      ((teamWords (applyReveals (setup_board ws ft assigns) revs) "BLUE").length : Int) := by
  have h := foldl_pres (f := fun g w => (reveal_card g w).2) (P := countInv)
    (fun g w hg => countInv_reveal g w hg) revs (setup_board ws ft assigns)
    (countInv_setup ws ft assigns hnd hlen)
  exact ⟨h.2.1, h.2.2⟩

/-- Evaluates the C4 invariant on a concrete setup followed by four
reveals (one of them repeated and one off the board). -/
theorem remaining_invariant_witness :
    w25.Nodup ∧
    (applyReveals (setup_board w25 "RED" cRoles) ["BED", "WEB", "BED", "XYZ"]).red_remaining =
      ((teamWords (applyReveals (setup_board w25 "RED" cRoles) ["BED", "WEB", "BED", "XYZ"]) "RED").length : Int) ∧
    (applyReveals (setup_board w25 "RED" cRoles) ["BED", "WEB", "BED", "XYZ"]).blue_remaining =
      ((teamWords (applyReveals (setup_board w25 "RED" cRoles) ["BED", "WEB", "BED", "XYZ"]) "BLUE").length : Int) :=
  ⟨by decide, remaining_invariant_spec w25 "RED" cRoles ["BED", "WEB", "BED", "XYZ"]
    (by decide) (by decide)⟩

/-- C5: a setup from 25 distinct sampled words, a starting team, and a
shuffle (permutation) of the biased role list yields exactly one
ASSASSIN, seven NEUTRAL, nine words for the starting team and eight for
the other; the turn is the starting team, nothing is revealed, and the
remaining counters equal the role tallies (9 for the starting team, 8
for the other). -/
theorem setup_board_spec (ws : List String) (ft : String) (assigns : List String)
    (hnd : ws.Nodup) (hlen : ws.length = 25) (hft : ft = "RED" ∨ ft = "BLUE")
    (hperm : assigns.Perm (base_assignments ft)) :
    (setup_board ws ft assigns).words.length = 25 ∧
    (setup_board ws ft assigns).words.Nodup ∧
    ((setup_board ws ft assigns).words.filter
      (fun w => decide (get_card_type (setup_board ws ft assigns) w = "ASSASSIN"))).length = 1 ∧
    ((setup_board ws ft assigns).words.filter
      (fun w => decide (get_card_type (setup_board ws ft assigns) w = "NEUTRAL"))).length = 7 ∧
    ((setup_board ws ft assigns).words.filter
      (fun w => decide (get_card_type (setup_board ws ft assigns) w = ft))).length = 9 ∧
    ((setup_board ws ft assigns).words.filter
      (fun w => decide (get_card_type (setup_board ws ft assigns) w = other_team ft))).length = 8 ∧
    (setup_board ws ft assigns).turn = ft ∧
    (setup_board ws ft assigns).revealed = [] ∧
    (ft = "RED" → (setup_board ws ft assigns).red_remaining = 9 ∧
      (setup_board ws ft assigns).blue_remaining = 8) ∧
    (ft = "BLUE" → (setup_board ws ft assigns).blue_remaining = 9 ∧
      (setup_board ws ft assigns).red_remaining = 8) := by
  have hlen2 : ws.length = assigns.length := by
    rw [hperm.length_eq]
    rcases hft with h | h <;> subst h <;> simpa [base_assignments] using hlen
  have hcnt : ∀ r, ((setup_board ws ft assigns).words.filter
      (fun w => decide (get_card_type (setup_board ws ft assigns) w = r))).length =
      (base_assignments ft).countP (fun a => decide (a = r)) := by
    intro r
    have hc : (setup_board ws ft assigns).words.filter
        (fun w => decide (get_card_type (setup_board ws ft assigns) w = r)) =
        ws.filter (fun w => decide (lookupRole (ws.zip assigns) w = r)) := by
      apply List.filter_congr
      intro w _
      simp [setup_board, get_card_type]
    rw [hc, filter_zip_lookup r ws assigns hnd hlen2, hperm.countP_eq]
  refine ⟨hlen, hnd, ?_, ?_, ?_, ?_, rfl, rfl, ?_, ?_⟩
  · rw [hcnt]
    rcases hft with h | h <;> subst h <;> decide
  · rw [hcnt]
    rcases hft with h | h <;> subst h <;> decide
  · rw [hcnt]
    rcases hft with h | h <;> subst h <;> decide
  · rw [hcnt]
    rcases hft with h | h <;> subst h <;> decide
  · intro h
    subst h
    constructor <;>
    · show ((assigns.countP _ : Nat) : Int) = _
      rw [hperm.countP_eq]
      decide
  · intro h
    subst h
    constructor <;>
    · show ((assigns.countP _ : Nat) : Int) = _
      rw [hperm.countP_eq]
      decide

/-- Evaluates setup_board on a concrete 25-word sample with the identity
shuffle of the RED-first role list. -/
theorem setup_board_witness :
    w25.Nodup ∧
    ((setup_board w25 "RED" (base_assignments "RED")).words.filter
      (fun w => decide (get_card_type (setup_board w25 "RED" (base_assignments "RED")) w = "ASSASSIN"))).length = 1 ∧
    ("RED" = "RED" → (setup_board w25 "RED" (base_assignments "RED")).red_remaining = 9 ∧
      (setup_board w25 "RED" (base_assignments "RED")).blue_remaining = 8) := by
  have h := setup_board_spec w25 "RED" (base_assignments "RED") (by decide) (by decide)
    (Or.inl rfl) (List.Perm.refl _)
  exact ⟨by decide, h.2.2.1, h.2.2.2.2.2.2.2.2.1⟩

/-- reveal_card never touches the game_over flag, the winner, or the
turn. -/
theorem reveal_keeps_flags (g : GameState) (w : String) :
    (reveal_card g w).2.game_over = g.game_over ∧
    (reveal_card g w).2.winner = g.winner ∧
    (reveal_card g w).2.turn = g.turn := by
  unfold reveal_card
  by_cases hc : w ∉ g.words ∨ w ∈ g.revealed
  · rw [if_pos hc]
    exact ⟨rfl, rfl, rfl⟩
  · rw [if_neg hc]
    dsimp only
    by_cases hR : get_card_type g w = "RED"
    · rw [if_pos hR]
      exact ⟨rfl, rfl, rfl⟩
    · rw [if_neg hR]
      by_cases hB : get_card_type g w = "BLUE"
      · rw [if_pos hB]
        exact ⟨rfl, rfl, rfl⟩
      · rw [if_neg hB]
        exact ⟨rfl, rfl, rfl⟩

/-- C3: in any orchestrator guessing step taken while the game is running
(so both remaining counters are nonzero, which the counting invariant
guarantees for every reachable step since a counter reaching zero ends
the game at the win check of that very step), a guess that reveals the
ASSASSIN card ends the game immediately with the other team as winner,
whatever the two counters hold. -/
theorem assassin_reveal_spec (gsr : GameState → String → Nat → Option String)
    (clue : String) (count n : Nat) (g : GameState) (w : String)
    (hgo : g.game_over = false)
    (hturn : g.turn = "RED" ∨ g.turn = "BLUE")
    (hg : gsr g clue count = some w)
    (hw : w ∈ g.words) (hr : w ∉ g.revealed)
    (hrole : get_card_type g w = "ASSASSIN")
    (hred : g.red_remaining ≠ 0) (hblue : g.blue_remaining ≠ 0) :
    (guessLoopWith gsr clue count (n + 1) g).1.game_over = true ∧
    (guessLoopWith gsr clue count (n + 1) g).1.winner =
      some (other_team g.turn) := by
  have hres : reveal_card g w =
      ((true, some "ASSASSIN"), { g with revealed := w :: g.revealed }) := by
    unfold reveal_card
    rw [if_neg (by push_neg; exact ⟨hw, hr⟩)]
    dsimp only
    rw [hrole, if_neg (by decide), if_neg (by decide)]
  have hcw : check_win_condition { g with revealed := w :: g.revealed } = none := by
    simp [check_win_condition, hred, hblue]
  have hne : ("ASSASSIN" : String) ≠ g.turn := by
    rcases hturn with ht | ht <;> rw [ht] <;> decide
  have hnotov : ¬(g.game_over = true) := by simp [hgo]
  simp only [guessLoopWith]
  rw [if_neg hnotov, hg]
  dsimp only
  rw [hres]
  dsimp only
  rw [if_neg (by decide : ¬(true = false)), hcw]
  dsimp only
  simp only [Option.getD_some]
  rw [if_pos hne]
  simp

/-- Evaluates the assassin step at cState with a policy that guesses the
assassin word WEB: the game ends at once with BLUE recorded as winner. -/
theorem assassin_reveal_witness :
    (guessLoopWith gsrWeb "X" 1 1 cState).1.game_over = true ∧
    (guessLoopWith gsrWeb "X" 1 1 cState).1.winner =
      some (other_team cState.turn) :=
  assassin_reveal_spec gsrWeb "X" 1 0 cState "WEB" rfl (Or.inl rfl) rfl
    (by decide) (by decide) (by decide) (by decide) (by decide)

/-- The main loop executes at most as many turns as its budget. -/
theorem runGame_turns_le (spy : GameState → String → String × Nat)
    (gsr : GameState → String → Nat → Option String) :
    ∀ (n : Nat) (g : GameState), (runGameCountWith spy gsr n g).2 ≤ n := by
  intro n
  induction n with
  | zero => intro g; simp [runGameCountWith]
  | succ m ih =>
    intro g
    simp only [runGameCountWith]
    split_ifs
    · simp
    · dsimp only
      have := ih (playTurnWith spy gsr g)
      omega

/-- The guessing loop sets the winner only together with the game_over
flag: an unfinished result state has no winner if the input had none. -/
theorem nw_guessLoop (gsr : GameState → String → Nat → Option String)
    (clue : String) (count : Nat) :
    ∀ (n : Nat) (g : GameState), (g.game_over = false → g.winner = none) →
      ((guessLoopWith gsr clue count n g).1.game_over = false →
        (guessLoopWith gsr clue count n g).1.winner = none) := by
  intro n
  induction n with
  | zero => intro g h; exact h
  | succ m ih =>
    intro g h
    simp only [guessLoopWith]
    by_cases hgo : g.game_over = true
    · simp [hgo]
    · have hgo2 : g.game_over = false := by simpa using hgo
      simp only [hgo2, Bool.false_eq_true, if_false]
      cases hgs : gsr g clue count with
      | none => exact h
      | some w =>
        dsimp only
        have hflags := reveal_keeps_flags g w
        by_cases hsucc : (reveal_card g w).1.1 = false
        · simp only [hsucc, if_true]
          intro hover
          rw [hflags.2.1]
          exact h (by rw [← hflags.1]; exact hover)
        · have hsucc2 : ((reveal_card g w).1.1 = false) = False := by
            simp [hsucc]
          simp only [hsucc2, if_false]
          cases hcw : check_win_condition (reveal_card g w).2 with
          | some v => simp
          | none =>
            dsimp only
            split_ifs with h1 h2 h3
            · simp
            · intro hover
              rw [hflags.2.1]
              exact h (hflags.1 ▸ hover)
            · intro hover
              rw [hflags.2.1]
              exact h (hflags.1 ▸ hover)
            · apply ih
              intro hov
              rw [hflags.2.1]
              exact h (hflags.1 ▸ hov)

/-- One orchestrated turn sets the winner only together with the
game_over flag. -/
theorem nw_playTurn (spy : GameState → String → String × Nat)
    (gsr : GameState → String → Nat → Option String) (g : GameState)
    (h : g.game_over = false → g.winner = none) :
    (playTurnWith spy gsr g).game_over = false →
      (playTurnWith spy gsr g).winner = none := by
  unfold playTurnWith
  dsimp only
  split_ifs with hpass hcond
  · exact h
  · exact nw_guessLoop gsr _ _ _ g h
  · exact nw_guessLoop gsr _ _ _ g h

/-- The main loop sets the winner only together with the game_over
flag. -/
theorem nw_run (spy : GameState → String → String × Nat)
    (gsr : GameState → String → Nat → Option String) :
    ∀ (n : Nat) (g : GameState), (g.game_over = false → g.winner = none) →
      ((runGameCountWith spy gsr n g).1.game_over = false →
        (runGameCountWith spy gsr n g).1.winner = none) := by
  intro n
  induction n with
  | zero => intro g h; exact h
  | succ m ih =>
    intro g h
    simp only [runGameCountWith]
    split_ifs with hgo
    · exact h
    · dsimp only
      exact ih (playTurnWith spy gsr g) (nw_playTurn spy gsr g h)

/-- C9: with the 50-turn budget of play_game the main loop executes at
most 50 turns whatever the two policies do, and when it stops without the
game being over (the ceiling case) no winner is recorded, provided the
initial state recorded none (as after setup_board). -/
theorem orchestrator_termination_spec (spy : GameState → String → String × Nat)
    (gsr : GameState → String → Nat → Option String) (g : GameState)
    (h : g.game_over = false → g.winner = none) :
    (runGameCountWith spy gsr 50 g).2 ≤ 50 ∧
    ((runGameCountWith spy gsr 50 g).1.game_over = false →
      (runGameCountWith spy gsr 50 g).1.winner = none) :=
  ⟨runGame_turns_le spy gsr 50 g, nw_run spy gsr 50 g h⟩

/-- Evaluates the 50-turn run with two always-passing policies from
cState: the loop stops after 50 turns, not game over, and no winner is
recorded. -/
theorem orchestrator_termination_witness :
    (runGameCountWith spyPass gsrNone 50 cState).2 ≤ 50 ∧
    (runGameCountWith spyPass gsrNone 50 cState).1.game_over = false ∧
    (runGameCountWith spyPass gsrNone 50 cState).1.winner = none :=
  ⟨(orchestrator_termination_spec spyPass gsrNone cState (fun _ => rfl)).1,
    by decide,
    (orchestrator_termination_spec spyPass gsrNone cState (fun _ => rfl)).2
      (by decide)⟩

/-- One category-loop iteration adds exactly its catDelta. -/
theorem catStep_eq (clue word : String) (acc : Nat) (p : String × List String) :
    catStep clue word acc p = acc + catDelta clue word p := by
  unfold catStep catDelta
  dsimp only
  split_ifs <;> omega

/-- The category loop totals the per-category increments. -/
theorem foldl_catStep (clue word : String) :
    ∀ (l : List (String × List String)) (acc : Nat),
      l.foldl (catStep clue word) acc = acc + (l.map (catDelta clue word)).sum := by
  intro l
  induction l with
  | nil => intro acc; simp
  | cons p t ih =>
    intro acc
    simp only [List.foldl_cons, List.map_cons, List.sum_cons, catStep_eq, ih]
    omega

/-- A nonzero list sum has a nonzero summand. -/
theorem sum_map_ne_zero {α : Type} (f : α → Nat) :
    ∀ (l : List α), (l.map f).sum ≠ 0 → ∃ p ∈ l, f p ≠ 0 := by
  intro l
  induction l with
  | nil => intro h; simp at h
  | cons p t ih =>
    intro h
    by_cases hp : f p = 0
    · have ht : (t.map f).sum ≠ 0 := by
        simp only [List.map_cons, List.sum_cons, hp, Nat.zero_add] at h
        exact h
      rcases ih ht with ⟨q, hq, hqne⟩
      exact ⟨q, List.mem_cons_of_mem p hq, hqne⟩
    · exact ⟨p, List.mem_cons_self p t, hp⟩

/-- A nonzero per-category increment forces the word into the category
list and the clue to be the category name or a member. -/
theorem catDelta_facts (clue word : String) (p : String × List String)
    (h : catDelta clue word p ≠ 0) :
    (p.1 = clue ∨ clue ∈ p.2) ∧ word ∈ p.2 := by
  unfold catDelta at h
  split_ifs at h with h1 h2 h3
  · exact ⟨Or.inl h1.1, h1.2⟩
  · exact ⟨Or.inl h1.1, h1.2⟩
  · exact ⟨Or.inr h3.2, h3.1⟩
  · exact absurd rfl h

/-- A nonzero category bonus only happens for a clue in triggerWords and
a word in memberWords. -/
theorem catBonus_pos_mem (clue word : String) (h : catBonus clue word ≠ 0) :
    clue ∈ triggerWords ∧ word ∈ memberWords := by
  have h2 : ((guesser_associations.map (catDelta clue word)).sum) ≠ 0 := by
    intro hz
    apply h
    unfold catBonus
    rw [foldl_catStep, hz]
  rcases sum_map_ne_zero (catDelta clue word) guesser_associations h2 with ⟨p, hp, hpne⟩
  rcases catDelta_facts clue word p hpne with ⟨hclue, hword⟩
  have hwm : word ∈ memberWords := by
    unfold memberWords
    rw [List.mem_flatten]
    exact ⟨p.2, List.mem_map_of_mem Prod.snd hp, hword⟩
  refine ⟨?_, hwm⟩
  unfold triggerWords
  rcases hclue with hc | hc
  · exact List.mem_append_left _ (hc ▸ List.mem_map_of_mem Prod.fst hp)
  · apply List.mem_append_right
    unfold memberWords
    rw [List.mem_flatten]
    exact ⟨p.2, List.mem_map_of_mem Prod.snd hp, hc⟩

/-- The substring component is at most 30. -/
theorem subScoreW_le (clue word : String) : subScoreW clue word ≤ 30 := by
  unfold subScoreW
  split_ifs <;> omega

/-- The length component is at most 10. -/
theorem lenScore_le (clue word : String) : lenScore clue word ≤ 10 :=
  Nat.sub_le _ _

/-- The character overlap is bounded by the number of distinct characters
of the word. -/
theorem overlapCount_le (clue word : String) :
    overlapCount clue word ≤ word.data.dedup.length := by
  unfold overlapCount
  have hnd : (clue.data.dedup.filter (fun c => decide (c ∈ word.data))).Nodup :=
    clue.data.nodup_dedup.filter _
  have hsub : (clue.data.dedup.filter (fun c => decide (c ∈ word.data))) ⊆
      word.data.dedup := by
    intro c hc
    have := (List.mem_filter.1 hc).2
    exact List.mem_dedup.2 (by simpa using this)
  exact (List.subperm_of_subset hnd hsub).length_le

set_option maxRecDepth 40000 in
/-- Every word of the pool has at most 9 distinct characters after
lowercasing. -/
theorem pool_dedup_le : ∀ W ∈ WORD_POOL, (lowerStr W).data.dedup.length ≤ 9 := by
  decide

set_option maxRecDepth 40000 in
/-- The score of any trigger clue against any category member is at most
100 (exhaustive check of the finite table). -/
theorem score_pairs : ∀ c ∈ triggerWords, ∀ w ∈ memberWords,
    score_word c w ≤ 100 := by
  decide

set_option maxRecDepth 40000 in
/-- The category bonus of any trigger clue against any category member is
0 or between 30 and 80 (exhaustive check of the finite table). -/
theorem catBonus_pairs : ∀ c ∈ triggerWords, ∀ w ∈ memberWords,
    catBonus c w = 0 ∨ (30 ≤ catBonus c w ∧ catBonus c w ≤ 80) := by
  decide

/-- C7 (counterexample part): the claim caps the category co-membership
bonus at +50, but for the clue water and the board candidate beach the
+50 name bonus and the +30 co-membership bonus stack to +80 (water is
itself listed in its own category), so the total score 100 exceeds the
claimed composite maximum 0 + 5*2 + 10 + 50 = 70. -/
theorem score_word_counterexample :
    score_word "water" "beach" = 100 ∧
    ("water" : String) ≠ "beach" ∧
    subScoreW "water" "beach" = 0 ∧
    overlapCount "water" "beach" = 2 ∧
    lenScore "water" "beach" = 10 ∧
    catBonus "water" "beach" = 80 ∧
    ¬(catBonus "water" "beach" ≤ 50) ∧
    ¬(score_word "water" "beach" ≤ 0 + 5 * 2 + 10 + 50) := by
  decide

/-- C7 (amended): an exact match scores 100; otherwise the score is the
sum of the substring (+30), overlap (5 per shared distinct character),
length-similarity (max(0, 10 - difference)) and category components,
where the category bonus is 0 or between +30 and +80 (the +50 name bonus
and the +30 co-membership bonus stack when the clue names a category
listing itself, as water does); and 100 stays maximal: no lowercased pool
word scores above 100 against any clue. -/
theorem score_word_spec (clue w W : String) :
    (clue = w → score_word clue w = 100) ∧
    (clue ≠ w → score_word clue w =
      subScoreW clue w + 5 * overlapCount clue w + lenScore clue w +
        catBonus clue w) ∧
    (catBonus clue w = 0 ∨ (30 ≤ catBonus clue w ∧ catBonus clue w ≤ 80)) ∧
    (W ∈ WORD_POOL → score_word clue (lowerStr W) ≤ 100) := by
  refine ⟨?_, ?_, ?_, ?_⟩
  · intro h
    unfold score_word
    rw [if_pos h]
  · intro h
    unfold score_word
    rw [if_neg h]
  · by_cases hcb : catBonus clue w = 0
    · exact Or.inl hcb
    · rcases catBonus_pos_mem clue w hcb with ⟨hc, hw⟩
      exact catBonus_pairs clue hc w hw
  · intro hW
    by_cases heq : clue = lowerStr W
    · unfold score_word
      rw [if_pos heq]
    · unfold score_word
      rw [if_neg heq]
      by_cases hcb : catBonus clue (lowerStr W) = 0
      · have h1 := subScoreW_le clue (lowerStr W)
        have h2 := overlapCount_le clue (lowerStr W)
        have h3 := pool_dedup_le W hW
        have h4 := lenScore_le clue (lowerStr W)
        rw [hcb]
        omega
      · rcases catBonus_pos_mem clue (lowerStr W) hcb with ⟨hc, hw⟩
        have := score_pairs clue hc (lowerStr W) hw
        unfold score_word at this
        rw [if_neg heq] at this
        exact this

/-- Evaluates the amended C7 statement at the clue water and the pool
word BEACH, discharging both hypotheses concretely. -/
theorem score_word_spec_witness :
    (("water" : String) ≠ "beach" ∧ score_word "water" "beach" =
      subScoreW "water" "beach" + 5 * overlapCount "water" "beach" +
        lenScore "water" "beach" + catBonus "water" "beach") ∧
    ("BEACH" ∈ WORD_POOL ∧ score_word "water" (lowerStr "BEACH") ≤ 100) :=
  ⟨⟨by decide, (score_word_spec "water" "beach" "BEACH").2.1 (by decide)⟩,
   ⟨by decide, (score_word_spec "water" "beach" "BEACH").2.2.2 (by decide)⟩⟩

end Codenames
